import Mathlib

/-!
# Verification of the tagpilot-lib normalization/denormalization engine

Shallow embedding of `src/util.rs` (the core mapping engine of the
repository): the uniform metadata model (`AudioTags`, `Position`, `Image`,
`AudioImageType`), the Normalizer (`AudioTags::from_tag`), the Denormalizer
(`AudioTags::to_tag`), and the cover/picture manager (`add_cover_image`,
`get_values_from_item`).

The underlying tag object and its accessors belong to the external tag
container library (lofty); they are modeled at the interface boundary as a
`Tag` holding an ordered list of keyed text items and an ordered list of
pictures.  The external content-type sniffer (`infer::get`) is modeled as a
function parameter `sniff : List Nat → Option String` returning the sniffed
mime string of a recognized kind, or `none`.
-/

/-- The item keys of the underlying tag container used by the engine
(boundary model of lofty `ItemKey`). -/
inductive ItemKey where
  | TrackTitle
  | TrackArtist
  | TrackArtists
  | AlbumTitle
  | Year
  | RecordingDate
  | Genre
  | TrackNumber
  | TrackTotal
  | DiscNumber
  | DiscTotal
  | AlbumArtist
  | Comment
  deriving DecidableEq, Fintype, Repr

/-- Boundary model of lofty `ItemValue`: a stored tag item value. -/
inductive ItemValue where
  | text (s : String)
  | locator (s : String)
  | binary (b : List Nat)
  deriving DecidableEq, Repr

/-- Boundary model of lofty `ItemValue::text()`: the text of a `Text` value. -/
def ItemValue.toText : ItemValue → Option String
  | .text s => some s
  | _ => none

/-- Boundary model of lofty `TagItem`: a keyed item of the underlying tag. -/
structure TagItem where
  key : ItemKey
  value : ItemValue
  deriving DecidableEq, Repr

/-- Boundary model of lofty `PictureType`: the external picture-role
enumeration, with a catch-all for roles the taxonomy does not name. -/
inductive PictureType where
  | Other
  | Icon
  | OtherIcon
  | CoverFront
  | CoverBack
  | Leaflet
  | Media
  | LeadArtist
  | Artist
  | Conductor
  | Band
  | Composer
  | Lyricist
  | RecordingLocation
  | DuringRecording
  | DuringPerformance
  | ScreenCapture
  | BrightFish
  | Illustration
  | BandLogo
  | PublisherLogo
  | Undefined (code : Nat)
  deriving DecidableEq, Repr

/-- Boundary model of lofty `MimeType`. -/
inductive MimeType where
  | Jpeg
  | Png
  | Gif
  | Tiff
  | Bmp
  | Unknown (s : String)
  deriving DecidableEq, Repr

/-- Boundary model of lofty `MimeType::from_str`: recognized image mime
strings map to the named case, anything else to `Unknown`. -/
def MimeType.from_str (s : String) : MimeType :=
  if s = "image/jpeg" then .Jpeg
  else if s = "image/png" then .Png
  else if s = "image/gif" then .Gif
  else if s = "image/tiff" then .Tiff
  else if s = "image/bmp" then .Bmp
  else .Unknown s

/-- Boundary model of lofty mime-type display, used when reading pictures. -/
def MimeType.toMimeString : MimeType → String
  | .Jpeg => "image/jpeg"
  | .Png => "image/png"
  | .Gif => "image/gif"
  | .Tiff => "image/tiff"
  | .Bmp => "image/bmp"
  | .Unknown s => s

/-- Boundary model of lofty `Picture`: role, optional mime type, optional
description, raw bytes. -/
structure Picture where
  pic_type : PictureType
  mime_type : Option MimeType
  description : Option String
  data : List Nat
  deriving DecidableEq, Repr

/-- Boundary model of lofty `Picture::new_unchecked`. -/
def Picture.new_unchecked (pic_type : PictureType) (mime_type : Option MimeType)
    (description : Option String) (data : List Nat) : Picture :=
  ⟨pic_type, mime_type, description, data⟩

/-- Boundary model of the underlying tag object (lofty `Tag`): an ordered
list of keyed items and an ordered list of pictures. -/
structure Tag where
  items : List TagItem
  pictures : List Picture
  deriving DecidableEq, Repr

/-- Boundary model of lofty `Tag::get_items`: all items with the given key,
in stored order. -/
def Tag.get_items (t : Tag) (k : ItemKey) : List TagItem :=
  t.items.filter (fun i => i.key == k)

/-- Boundary model of lofty `Tag::get`: the first item with the given key. -/
def Tag.get (t : Tag) (k : ItemKey) : Option TagItem :=
  t.items.find? (fun i => i.key == k)

/-- Boundary model of lofty `Tag::get_string`: the text of the first item
with the given key. -/
def Tag.get_string (t : Tag) (k : ItemKey) : Option String :=
  (t.get k).bind (fun i => i.value.toText)

/-- Boundary model of lofty `Tag::remove_key`: drop every item with the key. -/
def Tag.remove_key (t : Tag) (k : ItemKey) : Tag :=
  { t with items := t.items.filter (fun i => !(i.key == k)) }

/-- Boundary model of lofty `Tag::push`: append an item unconditionally. -/
def Tag.push (t : Tag) (i : TagItem) : Tag :=
  { t with items := t.items ++ [i] }

/-- Boundary model of lofty `Tag::insert_text`: replace any item of the same
key, appending the new text item. -/
def Tag.insert_text (t : Tag) (k : ItemKey) (s : String) : Tag :=
  (t.remove_key k).push ⟨k, .text s⟩

/-- Boundary model of lofty `Tag::push_picture`. -/
def Tag.push_picture (t : Tag) (p : Picture) : Tag :=
  { t with pictures := t.pictures ++ [p] }

/-- Boundary model of Rust `u32::from_str` (`str::parse::<u32>`): optional
leading plus sign, then one or more decimal digits, value below `2 ^ 32`. -/
def parseU32 (s : String) : Option Nat :=
  let body := if s.startsWith "+" then s.drop 1 else s
  if body.length > 0 && body.all Char.isDigit then
    let v := body.foldl (fun acc c => acc * 10 + (c.toNat - 48)) 0
    if v < 4294967296 then some v else none
  else none

/-- Boundary model of the lofty `Accessor::title` for `Tag`. -/
def Tag.title (t : Tag) : Option String := t.get_string .TrackTitle

/-- Boundary model of the lofty `Accessor::artist` for `Tag` (the singular
artist accessor). -/
def Tag.artist (t : Tag) : Option String := t.get_string .TrackArtist

/-- Boundary model of the lofty `Accessor::album` for `Tag`. -/
def Tag.album (t : Tag) : Option String := t.get_string .AlbumTitle

/-- Boundary model of the lofty `Accessor::genre` for `Tag`. -/
def Tag.genre (t : Tag) : Option String := t.get_string .Genre

/-- Boundary model of the lofty `Accessor::comment` for `Tag`. -/
def Tag.comment (t : Tag) : Option String := t.get_string .Comment

/-- Boundary model of the lofty `Accessor::year` for `Tag`: parse the year
item, falling back to the leading four characters of the recording date. -/
def Tag.year (t : Tag) : Option Nat :=
  match (t.get_string .Year).bind parseU32 with
  | some y => some y
  | none => (t.get_string .RecordingDate).bind (fun s => parseU32 (s.take 4))

/-- Boundary model of the lofty `Accessor::track` for `Tag`. -/
def Tag.track (t : Tag) : Option Nat :=
  (t.get_string .TrackNumber).bind parseU32

/-- Boundary model of the lofty `Accessor::track_total` for `Tag`. -/
def Tag.track_total (t : Tag) : Option Nat :=
  (t.get_string .TrackTotal).bind parseU32

/-- Boundary model of the lofty `Accessor::disk` for `Tag`. -/
def Tag.disk (t : Tag) : Option Nat :=
  (t.get_string .DiscNumber).bind parseU32

/-- Boundary model of the lofty `Accessor::disk_total` for `Tag`. -/
def Tag.disk_total (t : Tag) : Option Nat :=
  (t.get_string .DiscTotal).bind parseU32

/-- `Position` from `util.rs`: an ordinal pair with independently optional
members. -/
structure Position where
  no : Option Nat
  of : Option Nat
  deriving DecidableEq, Repr

/-- `AudioImageType` from `util.rs`: the closed picture-role taxonomy. -/
inductive AudioImageType where
  | Icon
  | OtherIcon
  | CoverFront
  | CoverBack
  | Leaflet
  | Media
  | LeadArtist
  | Artist
  | Conductor
  | Band
  | Composer
  | Lyricist
  | RecordingLocation
  | DuringRecording
  | DuringPerformance
  | ScreenCapture
  | BrightFish
  | Illustration
  | BandLogo
  | PublisherLogo
  | Other
  deriving DecidableEq, Fintype, Repr

/-- `AudioImageType::from_picture_type` from `util.rs`: map an external
picture role into the taxonomy; unrecognized roles collapse to `Other`. -/
def AudioImageType.from_picture_type (picture_type : PictureType) : AudioImageType :=
  match picture_type with
  | .Icon => .Icon
  | .OtherIcon => .OtherIcon
  | .CoverFront => .CoverFront
  | .CoverBack => .CoverBack
  | .Leaflet => .Leaflet
  | .Media => .Media
  | .LeadArtist => .LeadArtist
  | .Artist => .Artist
  | .Conductor => .Conductor
  | .Band => .Band
  | .Composer => .Composer
  | .Lyricist => .Lyricist
  | .RecordingLocation => .RecordingLocation
  | .DuringRecording => .DuringRecording
  | .DuringPerformance => .DuringPerformance
  | .ScreenCapture => .ScreenCapture
  | .BrightFish => .BrightFish
  | .Illustration => .Illustration
  | .BandLogo => .BandLogo
  | .PublisherLogo => .PublisherLogo
  | _ => .Other

/-- `AudioImageType::build_picture_type` from `util.rs`: map a taxonomy case
to the external picture role (total). -/
def AudioImageType.build_picture_type (t : AudioImageType) : PictureType :=
  match t with
  | .Icon => .Icon
  | .OtherIcon => .OtherIcon
  | .CoverFront => .CoverFront
  | .CoverBack => .CoverBack
  | .Leaflet => .Leaflet
  | .Media => .Media
  | .LeadArtist => .LeadArtist
  | .Artist => .Artist
  | .Conductor => .Conductor
  | .Band => .Band
  | .Composer => .Composer
  | .Lyricist => .Lyricist
  | .RecordingLocation => .RecordingLocation
  | .DuringRecording => .DuringRecording
  | .DuringPerformance => .DuringPerformance
  | .ScreenCapture => .ScreenCapture
  | .BrightFish => .BrightFish
  | .Illustration => .Illustration
  | .BandLogo => .BandLogo
  | .PublisherLogo => .PublisherLogo
  | .Other => .Other

/-- `Image` from `util.rs`: raw bytes plus role, mime type and description. -/
structure Image where
  data : List Nat
  pic_type : AudioImageType
  mime_type : Option String
  description : Option String
  deriving DecidableEq, Repr

/-- `Image::from_picture` from `util.rs`. -/
def Image.from_picture (picture : Picture) : Image :=
  { data := picture.data
    pic_type := AudioImageType.from_picture_type picture.pic_type
    mime_type := picture.mime_type.map MimeType.toMimeString
    description := picture.description }

/-- `AudioTags` from `util.rs`: the uniform metadata model. -/
structure AudioTags where
  title : Option String
  artists : Option (List String)
  album : Option String
  year : Option Nat
  genre : Option String
  track : Option Position
  album_artists : Option (List String)
  comment : Option String
  disc : Option Position
  image : Option Image
  all_images : Option (List Image)
  deriving DecidableEq, Repr

/-- The `Default::default()` of `AudioTags` (derived `Default` in `util.rs`):
every field absent. -/
def AudioTags.defaultTags : AudioTags :=
  ⟨none, none, none, none, none, none, none, none, none, none, none⟩

/-- `add_cover_image` from `util.rs`: resolve the mime type by content
sniffing (falling back to the supplied default), then rebuild the picture
list with the new cover first.  The Rust loop pops every picture from the
tag into a stack, keeping only non-cover-front ones, pushes the new cover
picture onto the stack, and pops the stack back into the tag; the stack
(bottom to top) is the reversed non-cover list followed by the new cover, so
popping restores the new cover first and then the surviving pictures in
their original relative order. -/
def add_cover_image (sniff : List Nat → Option String) (primary_tag : Tag)
    (image_data : List Nat) (image_description : Option String)
    (default_mime_type : MimeType) : Tag :=
  let buf := image_data
  let mime_type :=
    match (sniff buf).map (fun kind => MimeType.from_str kind) with
    | some m => m
    | none => default_mime_type
  let pictures_stack :=
    (primary_tag.pictures.reverse.filter
      (fun p => !(p.pic_type == PictureType.CoverFront)))
    ++ [Picture.new_unchecked .CoverFront (some mime_type) image_description buf]
  { primary_tag with pictures := pictures_stack.reverse }

/-- `get_values_from_item` from `util.rs`: for every item of the key, take
its text (or the empty string when it has none), split on the comma
delimiter, trim each segment, and collect in order. -/
def get_values_from_item (tag : Tag) (item_key : ItemKey) : List String :=
  (tag.get_items item_key).foldl
    (fun result item =>
      let values := (item.value.toText).getD ""
      result ++ (values.splitOn ",").map (fun v => v.trim))
    []

/-- The picture sort of `from_tag` and `to_tag` in `util.rs`:
`sort_by_key` with key 0 for cover-front and 1 otherwise.  Rust `sort_by_key`
is stable, and a stable sort on a two-valued key is exactly the stable
partition: the cover-front images in original order, then the rest in
original order. -/
def sortCoverFirst (l : List Image) : List Image :=
  l.filter (fun image => image.pic_type == AudioImageType.CoverFront)
    ++ l.filter (fun image => !(image.pic_type == AudioImageType.CoverFront))

/-- `AudioTags::from_tag` from `util.rs`: the Normalizer. -/
def AudioTags.from_tag (tag : Tag) : AudioTags :=
  let artists_values := get_values_from_item tag .TrackArtists
  let album_artists_values := get_values_from_item tag .AlbumArtist
  let all_images := sortCoverFirst (tag.pictures.map Image.from_picture)
  let image :=
    match all_images.head? with
    | none => none
    | some img =>
      if img.pic_type == AudioImageType.CoverFront then some img else none
  { title := tag.title
    artists := some artists_values
    album := tag.album
    year := tag.year
    genre := tag.genre
    track :=
      match tag.track, tag.track_total with
      | none, none => none
      | no, of => some ⟨no, of⟩
    album_artists := some album_artists_values
    comment := tag.comment
    disc :=
      match tag.disk, tag.disk_total with
      | none, none => none
      | no, of => some ⟨no, of⟩
    image := image
    all_images := if all_images.isEmpty then none else some all_images }

/-- The title block of `AudioTags::to_tag` in `util.rs`. -/
def toTagTitle (a : AudioTags) (t : Tag) : Tag :=
  match a.title with
  | some title => (t.remove_key .TrackTitle).insert_text .TrackTitle title
  | none => t

/-- The artists block of `AudioTags::to_tag` in `util.rs`: for a non-empty
list, remove both artist keys, then push the singular item with the first
element and the multi-value item with the comma-space join. -/
def toTagArtists (a : AudioTags) (t : Tag) : Tag :=
  match a.artists with
  | some artists =>
    match artists with
    | [] => t
    | artist_value :: rest =>
      (((t.remove_key .TrackArtist).remove_key .TrackArtists).push
          ⟨.TrackArtist, .text artist_value⟩).push
        ⟨.TrackArtists, .text (String.intercalate ", " (artist_value :: rest))⟩
  | none => t

/-- The album block of `AudioTags::to_tag` in `util.rs`. -/
def toTagAlbum (a : AudioTags) (t : Tag) : Tag :=
  match a.album with
  | some album => (t.remove_key .AlbumTitle).insert_text .AlbumTitle album
  | none => t

/-- The year block of `AudioTags::to_tag` in `util.rs`: keep the year item
and the recording-date item in sync. -/
def toTagYear (a : AudioTags) (t : Tag) : Tag :=
  match a.year with
  | some year =>
    (((t.remove_key .Year).remove_key .RecordingDate).insert_text
        .Year (toString year)).insert_text .RecordingDate (toString year)
  | none => t

/-- The genre block of `AudioTags::to_tag` in `util.rs`. -/
def toTagGenre (a : AudioTags) (t : Tag) : Tag :=
  match a.genre with
  | some genre => (t.remove_key .Genre).insert_text .Genre genre
  | none => t

/-- The track-number half of the track block of `AudioTags::to_tag`. -/
def toTagTrackNo (a : AudioTags) (t : Tag) : Tag :=
  match a.track with
  | some track =>
    match track.no with
    | some no => (t.remove_key .TrackNumber).insert_text .TrackNumber (toString no)
    | none => t
  | none => t

/-- The track-total half of the track block of `AudioTags::to_tag`. -/
def toTagTrackOf (a : AudioTags) (t : Tag) : Tag :=
  match a.track with
  | some track =>
    match track.of with
    | some of => (t.remove_key .TrackTotal).insert_text .TrackTotal (toString of)
    | none => t
  | none => t

/-- The disc-number half of the disc block of `AudioTags::to_tag`. -/
def toTagDiscNo (a : AudioTags) (t : Tag) : Tag :=
  match a.disc with
  | some disc =>
    match disc.no with
    | some no => (t.remove_key .DiscNumber).insert_text .DiscNumber (toString no)
    | none => t
  | none => t

/-- The disc-total half of the disc block of `AudioTags::to_tag`. -/
def toTagDiscOf (a : AudioTags) (t : Tag) : Tag :=
  match a.disc with
  | some disc =>
    match disc.of with
    | some of => (t.remove_key .DiscTotal).insert_text .DiscTotal (toString of)
    | none => t
  | none => t

/-- The album-artists block of `AudioTags::to_tag` in `util.rs`: only the
multi-value item is written. -/
def toTagAlbumArtists (a : AudioTags) (t : Tag) : Tag :=
  match a.album_artists with
  | some album_artists =>
    match album_artists with
    | [] => t
    | x :: rest =>
      (t.remove_key .AlbumArtist).push
        ⟨.AlbumArtist, .text (String.intercalate ", " (x :: rest))⟩
  | none => t

/-- The comment block of `AudioTags::to_tag` in `util.rs`. -/
def toTagComment (a : AudioTags) (t : Tag) : Tag :=
  match a.comment with
  | some comment => (t.remove_key .Comment).insert_text .Comment comment
  | none => t

/-- `Picture::new_unchecked(image.pic_type.build_picture_type(), ...)` as
used by the `all_images` branch of `to_tag`. -/
def Image.buildPicture (image : Image) : Picture :=
  Picture.new_unchecked image.pic_type.build_picture_type
    (image.mime_type.map MimeType.from_str) image.description image.data

/-- The images block of `AudioTags::to_tag` in `util.rs`: a present
`all_images` is sorted cover-first and fully replaces the picture list
(the Rust loop removes every existing picture, then pushes each new one);
otherwise a present `image` triggers a cover-only replace via
`add_cover_image` with default mime falling back to jpeg. -/
def toTagImages (sniff : List Nat → Option String) (a : AudioTags) (t : Tag) : Tag :=
  match a.all_images with
  | some all_images =>
    let sorted := sortCoverFirst all_images
    let t := { t with pictures := [] }
    sorted.foldl (fun t image => t.push_picture image.buildPicture) t
  | none =>
    match a.image with
    | some image =>
      add_cover_image sniff t image.data image.description
        (((image.mime_type).map MimeType.from_str).getD .Jpeg)
    | none => t

/-- `AudioTags::to_tag` from `util.rs`: the Denormalizer, applied as the
source applies its blocks in order. -/
def AudioTags.to_tag (sniff : List Nat → Option String) (a : AudioTags)
    (primary_tag : Tag) : Tag :=
  toTagImages sniff a
    (toTagComment a
      (toTagAlbumArtists a
        (toTagDiscOf a
          (toTagDiscNo a
            (toTagTrackOf a
              (toTagTrackNo a
                (toTagGenre a
                  (toTagYear a
                    (toTagAlbum a
                      (toTagArtists a
                        (toTagTitle a primary_tag)))))))))))

/-- `generic_read_tags` from `util.rs`, at the primary-tag boundary: an
absent primary tag normalizes to the all-absent default, a present one via
`from_tag`.  File probing and I/O belong to the external collaborator. -/
def generic_read_tags (primary_tag : Option Tag) : AudioTags :=
  match primary_tag with
  | none => AudioTags.defaultTags
  | some tag => AudioTags.from_tag tag

/-!
## A generic remove-then-insert step pipeline

Every scalar/list field block of `to_tag` has the same shape: when the field
is present (and, for lists, non-empty), drop the items of the block's keys
and append the freshly built items.  We capture one block as a `WStep` and
the whole item part of `to_tag` as a fold of such steps, then characterize
the fold once and for all.
-/

/-- One field block of `to_tag`: `keep` is the survival predicate of the
block's removals (`false` exactly on the block's keys), `active` tells
whether the block fires for the given `AudioTags`, `writes` are the items it
appends. -/
structure WStep where
  keep : ItemKey → Bool
  active : Bool
  writes : List TagItem

/-- The effect of one block on the item list. -/
def applyStep (s : WStep) (l : List TagItem) : List TagItem :=
  if s.active then l.filter (fun i => s.keep i.key) ++ s.writes else l

/-- The item list after a sequence of blocks, applied left to right. -/
def applySteps (l : List TagItem) (ss : List WStep) : List TagItem :=
  ss.foldl (fun l s => applyStep s l) l

/-- The survival predicate of one block, accounting for its activity. -/
def stepKeep (s : WStep) (k : ItemKey) : Bool :=
  if s.active then s.keep k else true

/-- The combined survival predicate of a block sequence. -/
def activeKeep : List WStep → ItemKey → Bool
  | [], _ => true
  | s :: rest, k => activeKeep rest k && stepKeep s k

/-- The items appended by the active blocks of a sequence, in order. -/
def activeWrites : List WStep → List TagItem
  | [] => []
  | s :: rest => (if s.active then s.writes else []) ++ activeWrites rest

theorem activeKeep_eq_true {ss : List WStep} {k : ItemKey}
    (h : ∀ s ∈ ss, stepKeep s k = true) : activeKeep ss k = true := by
  induction ss with
  | nil => rfl
  | cons s rest ih =>
    simp only [activeKeep]
    rw [ih (fun t ht => h t (List.mem_cons_of_mem s ht)), h s (List.mem_cons_self _ _)]
    rfl

theorem activeKeep_eq_false {ss : List WStep} {k : ItemKey} {s : WStep}
    (hs : s ∈ ss) (h : stepKeep s k = false) : activeKeep ss k = false := by
  induction ss with
  | nil => cases hs
  | cons t rest ih =>
    simp only [activeKeep]
    rcases List.mem_cons.mp hs with rfl | hmem
    · rw [h, Bool.and_false]
    · rw [ih hmem, Bool.false_and]

theorem mem_activeWrites {i : TagItem} {ss : List WStep} :
    i ∈ activeWrites ss ↔ ∃ s ∈ ss, s.active = true ∧ i ∈ s.writes := by
  induction ss with
  | nil => simp [activeWrites]
  | cons s rest ih =>
    by_cases h : s.active = true
    · simp [activeWrites, h, ih, List.mem_append]
    · simp only [Bool.not_eq_true] at h
      simp [activeWrites, h, ih]

/-- Characterization of the block pipeline: provided every block's writes
carry only that block's keys and distinct blocks remove disjoint key sets,
the pipeline filters the input once through the combined survival predicate
and appends all active writes in order. -/
theorem applySteps_char {ss : List WStep} (l : List TagItem)
    (hw : ∀ s ∈ ss, s.active = true → ∀ i ∈ s.writes, s.keep i.key = false)
    (hd : ss.Pairwise (fun s t => ∀ k, s.keep k = false → t.keep k = true)) :
    applySteps l ss = l.filter (fun i => activeKeep ss i.key) ++ activeWrites ss := by
  induction ss generalizing l with
  | nil => simp [applySteps, activeKeep, activeWrites]
  | cons s rest ih =>
    have hwRest : ∀ t ∈ rest, t.active = true → ∀ i ∈ t.writes, t.keep i.key = false :=
      fun t ht => hw t (List.mem_cons_of_mem s ht)
    have hdRest : rest.Pairwise (fun s t => ∀ k, s.keep k = false → t.keep k = true) :=
      (List.pairwise_cons.mp hd).2
    have hdHead : ∀ t ∈ rest, ∀ k, s.keep k = false → t.keep k = true :=
      (List.pairwise_cons.mp hd).1
    by_cases hact : s.active = true
    · have step1 : applySteps l (s :: rest) = applySteps (l.filter (fun i => s.keep i.key) ++ s.writes) rest := by
        simp [applySteps, applyStep, hact]
      rw [step1, ih _ hwRest hdRest, List.filter_append]
      have hsurv : (s.writes.filter (fun i => activeKeep rest i.key)) = s.writes := by
        refine List.filter_eq_self.mpr (fun i hi => ?_)
        refine activeKeep_eq_true (fun t ht => ?_)
        have hkeepS : s.keep i.key = false := hw s (List.mem_cons_self _ _) hact i hi
        have : t.keep i.key = true := hdHead t ht i.key hkeepS
        simp [stepKeep, this]
      rw [hsurv, List.filter_filter]
      have hpred : (fun i : TagItem => activeKeep rest i.key && s.keep i.key)
          = (fun i : TagItem => activeKeep (s :: rest) i.key) := by
        funext i
        simp [activeKeep, stepKeep, hact]
      rw [hpred]
      have hwr : activeWrites (s :: rest) = s.writes ++ activeWrites rest := by
        simp [activeWrites, hact]
      rw [hwr, List.append_assoc]
    · simp only [Bool.not_eq_true] at hact
      have step1 : applySteps l (s :: rest) = applySteps l rest := by
        simp [applySteps, applyStep, hact]
      rw [step1, ih _ hwRest hdRest]
      have hpred : (fun i : TagItem => activeKeep rest i.key)
          = (fun i : TagItem => activeKeep (s :: rest) i.key) := by
        funext i
        simp [activeKeep, stepKeep, hact]
      rw [hpred]
      have hwr : activeWrites (s :: rest) = activeWrites rest := by
        simp [activeWrites, hact]
      rw [hwr]

/-- Idempotence of the block pipeline under the same side conditions. -/
theorem applySteps_idem {ss : List WStep} (l : List TagItem)
    (hw : ∀ s ∈ ss, s.active = true → ∀ i ∈ s.writes, s.keep i.key = false)
    (hd : ss.Pairwise (fun s t => ∀ k, s.keep k = false → t.keep k = true)) :
    applySteps (applySteps l ss) ss = applySteps l ss := by
  rw [applySteps_char l hw hd, applySteps_char _ hw hd, List.filter_append,
    List.filter_filter]
  have h1 : (List.filter (fun i => activeKeep ss i.key && activeKeep ss i.key) l)
      = l.filter (fun i => activeKeep ss i.key) :=
    List.filter_congr (fun i _ => Bool.and_self _)
  have h2 : (activeWrites ss).filter (fun i => activeKeep ss i.key) = [] := by
    refine List.filter_eq_nil_iff.mpr (fun i hi => ?_)
    rcases mem_activeWrites.mp hi with ⟨s, hs, hact, hiw⟩
    have hkeepS : s.keep i.key = false := hw s hs hact i hiw
    have : stepKeep s i.key = false := by simp [stepKeep, hact, hkeepS]
    simp [activeKeep_eq_false hs this]
  rw [h1, h2, List.append_nil]

/-! ## The concrete blocks of `to_tag` as pipeline steps -/

/-- Survival predicate of the title block (removes `TrackTitle`). -/
def titleKeep : ItemKey → Bool := fun k => !(k == ItemKey.TrackTitle)

/-- Survival predicate of the artists block (removes both artist keys). -/
def artistsKeep : ItemKey → Bool :=
  fun k => !(k == ItemKey.TrackArtists) && !(k == ItemKey.TrackArtist)

/-- Survival predicate of the album block. -/
def albumKeep : ItemKey → Bool := fun k => !(k == ItemKey.AlbumTitle)

/-- Survival predicate of the year block (removes both year keys). -/
def yearKeep : ItemKey → Bool :=
  fun k => !(k == ItemKey.RecordingDate) && !(k == ItemKey.Year)

/-- Survival predicate of the genre block. -/
def genreKeep : ItemKey → Bool := fun k => !(k == ItemKey.Genre)

/-- Survival predicate of the track-number half block. -/
def trackNoKeep : ItemKey → Bool := fun k => !(k == ItemKey.TrackNumber)

/-- Survival predicate of the track-total half block. -/
def trackOfKeep : ItemKey → Bool := fun k => !(k == ItemKey.TrackTotal)

/-- Survival predicate of the disc-number half block. -/
def discNoKeep : ItemKey → Bool := fun k => !(k == ItemKey.DiscNumber)

/-- Survival predicate of the disc-total half block. -/
def discOfKeep : ItemKey → Bool := fun k => !(k == ItemKey.DiscTotal)

/-- Survival predicate of the album-artists block. -/
def albumArtistsKeep : ItemKey → Bool := fun k => !(k == ItemKey.AlbumArtist)

/-- Survival predicate of the comment block. -/
def commentKeep : ItemKey → Bool := fun k => !(k == ItemKey.Comment)

/-- Whether the artists block fires: a present non-empty list. -/
def artistsActive (a : AudioTags) : Bool :=
  match a.artists with
  | some (_ :: _) => true
  | _ => false

/-- Whether the album-artists block fires: a present non-empty list. -/
def albumArtistsActive (a : AudioTags) : Bool :=
  match a.album_artists with
  | some (_ :: _) => true
  | _ => false

/-- Whether the track-number half block fires. -/
def trackNoActive (a : AudioTags) : Bool :=
  match a.track with
  | some pos => pos.no.isSome
  | none => false

/-- Whether the track-total half block fires. -/
def trackOfActive (a : AudioTags) : Bool :=
  match a.track with
  | some pos => pos.of.isSome
  | none => false

/-- Whether the disc-number half block fires. -/
def discNoActive (a : AudioTags) : Bool :=
  match a.disc with
  | some pos => pos.no.isSome
  | none => false

/-- Whether the disc-total half block fires. -/
def discOfActive (a : AudioTags) : Bool :=
  match a.disc with
  | some pos => pos.of.isSome
  | none => false

/-- Items appended by the title block. -/
def titleWrites (a : AudioTags) : List TagItem :=
  match a.title with
  | some v => [⟨.TrackTitle, .text v⟩]
  | none => []

/-- Items appended by the artists block: the singular item with the first
element, then the multi-value item with the comma-space join. -/
def artistsWrites (a : AudioTags) : List TagItem :=
  match a.artists with
  | some (x :: rest) =>
    [⟨.TrackArtist, .text x⟩,
     ⟨.TrackArtists, .text (String.intercalate ", " (x :: rest))⟩]
  | _ => []

/-- Items appended by the album block. -/
def albumWrites (a : AudioTags) : List TagItem :=
  match a.album with
  | some v => [⟨.AlbumTitle, .text v⟩]
  | none => []

/-- Items appended by the year block: both year keys, kept in sync. -/
def yearWrites (a : AudioTags) : List TagItem :=
  match a.year with
  | some y => [⟨.Year, .text (toString y)⟩, ⟨.RecordingDate, .text (toString y)⟩]
  | none => []

/-- Items appended by the genre block. -/
def genreWrites (a : AudioTags) : List TagItem :=
  match a.genre with
  | some v => [⟨.Genre, .text v⟩]
  | none => []

/-- Items appended by the track-number half block. -/
def trackNoWrites (a : AudioTags) : List TagItem :=
  match a.track with
  | some pos =>
    match pos.no with
    | some n => [⟨.TrackNumber, .text (toString n)⟩]
    | none => []
  | none => []

/-- Items appended by the track-total half block. -/
def trackOfWrites (a : AudioTags) : List TagItem :=
  match a.track with
  | some pos =>
    match pos.of with
    | some n => [⟨.TrackTotal, .text (toString n)⟩]
    | none => []
  | none => []

/-- Items appended by the disc-number half block. -/
def discNoWrites (a : AudioTags) : List TagItem :=
  match a.disc with
  | some pos =>
    match pos.no with
    | some n => [⟨.DiscNumber, .text (toString n)⟩]
    | none => []
  | none => []

/-- Items appended by the disc-total half block. -/
def discOfWrites (a : AudioTags) : List TagItem :=
  match a.disc with
  | some pos =>
    match pos.of with
    | some n => [⟨.DiscTotal, .text (toString n)⟩]
    | none => []
  | none => []

/-- Items appended by the album-artists block: only the multi-value item. -/
def albumArtistsWrites (a : AudioTags) : List TagItem :=
  match a.album_artists with
  | some (x :: rest) =>
    [⟨.AlbumArtist, .text (String.intercalate ", " (x :: rest))⟩]
  | _ => []

/-- Items appended by the comment block. -/
def commentWrites (a : AudioTags) : List TagItem :=
  match a.comment with
  | some v => [⟨.Comment, .text v⟩]
  | none => []

/-- The title block as a pipeline step. -/
def titleStep (a : AudioTags) : WStep := ⟨titleKeep, a.title.isSome, titleWrites a⟩

/-- The artists block as a pipeline step. -/
def artistsStep (a : AudioTags) : WStep := ⟨artistsKeep, artistsActive a, artistsWrites a⟩

/-- The album block as a pipeline step. -/
def albumStep (a : AudioTags) : WStep := ⟨albumKeep, a.album.isSome, albumWrites a⟩

/-- The year block as a pipeline step. -/
def yearStep (a : AudioTags) : WStep := ⟨yearKeep, a.year.isSome, yearWrites a⟩

/-- The genre block as a pipeline step. -/
def genreStep (a : AudioTags) : WStep := ⟨genreKeep, a.genre.isSome, genreWrites a⟩

/-- The track-number half block as a pipeline step. -/
def trackNoStep (a : AudioTags) : WStep := ⟨trackNoKeep, trackNoActive a, trackNoWrites a⟩

/-- The track-total half block as a pipeline step. -/
def trackOfStep (a : AudioTags) : WStep := ⟨trackOfKeep, trackOfActive a, trackOfWrites a⟩

/-- The disc-number half block as a pipeline step. -/
def discNoStep (a : AudioTags) : WStep := ⟨discNoKeep, discNoActive a, discNoWrites a⟩

/-- The disc-total half block as a pipeline step. -/
def discOfStep (a : AudioTags) : WStep := ⟨discOfKeep, discOfActive a, discOfWrites a⟩

/-- The album-artists block as a pipeline step. -/
def albumArtistsStep (a : AudioTags) : WStep :=
  ⟨albumArtistsKeep, albumArtistsActive a, albumArtistsWrites a⟩

/-- The comment block as a pipeline step. -/
def commentStep (a : AudioTags) : WStep := ⟨commentKeep, a.comment.isSome, commentWrites a⟩

/-- All item blocks of `to_tag`, in source order. -/
def stepsOf (a : AudioTags) : List WStep :=
  [titleStep a, artistsStep a, albumStep a, yearStep a, genreStep a,
   trackNoStep a, trackOfStep a, discNoStep a, discOfStep a,
   albumArtistsStep a, commentStep a]

theorem filter_twice {α : Type} (p : α → Bool) (l : List α) :
    List.filter p (List.filter p l) = List.filter p l := by
  rw [List.filter_filter]
  exact List.filter_congr (fun a _ => Bool.and_self _)

theorem filter_quad {α : Type} (p q : α → Bool) (l : List α) :
    List.filter q (List.filter p (List.filter q (List.filter p l)))
      = List.filter (fun i => q i && p i) l := by
  simp only [List.filter_filter]
  exact List.filter_congr (fun a _ => by cases p a <;> cases q a <;> simp)

/-! ## Each `to_tag` block equals its pipeline step -/

theorem toTagTitle_items (a : AudioTags) (t : Tag) :
    (toTagTitle a t).items = applyStep (titleStep a) t.items := by
  cases h : a.title with
  | none => simp [toTagTitle, titleStep, applyStep, titleWrites, h]
  | some v =>
    simp only [toTagTitle, titleStep, applyStep, titleWrites, h, Option.isSome_some,
      if_true, Tag.remove_key, Tag.insert_text, Tag.push, titleKeep]
    rw [filter_twice]

theorem toTagArtists_items (a : AudioTags) (t : Tag) :
    (toTagArtists a t).items = applyStep (artistsStep a) t.items := by
  cases h : a.artists with
  | none => simp [toTagArtists, artistsStep, applyStep, artistsWrites, artistsActive, h]
  | some l =>
    cases l with
    | nil => simp [toTagArtists, artistsStep, applyStep, artistsWrites, artistsActive, h]
    | cons x rest =>
      simp only [toTagArtists, artistsStep, applyStep, artistsWrites, artistsActive, h,
        if_true, Tag.remove_key, Tag.push, artistsKeep, List.filter_filter, List.append_assoc,
        List.cons_append, List.nil_append]

theorem toTagAlbum_items (a : AudioTags) (t : Tag) :
    (toTagAlbum a t).items = applyStep (albumStep a) t.items := by
  cases h : a.album with
  | none => simp [toTagAlbum, albumStep, applyStep, albumWrites, h]
  | some v =>
    simp only [toTagAlbum, albumStep, applyStep, albumWrites, h, Option.isSome_some,
      if_true, Tag.remove_key, Tag.insert_text, Tag.push, albumKeep]
    rw [filter_twice]

theorem toTagYear_items (a : AudioTags) (t : Tag) :
    (toTagYear a t).items = applyStep (yearStep a) t.items := by
  cases h : a.year with
  | none => simp [toTagYear, yearStep, applyStep, yearWrites, h]
  | some y =>
    simp only [toTagYear, yearStep, applyStep, yearWrites, h, Option.isSome_some,
      if_true, Tag.remove_key, Tag.insert_text, Tag.push, yearKeep, List.filter_append]
    rw [filter_quad]
    simp [List.append_assoc]

theorem toTagGenre_items (a : AudioTags) (t : Tag) :
    (toTagGenre a t).items = applyStep (genreStep a) t.items := by
  cases h : a.genre with
  | none => simp [toTagGenre, genreStep, applyStep, genreWrites, h]
  | some v =>
    simp only [toTagGenre, genreStep, applyStep, genreWrites, h, Option.isSome_some,
      if_true, Tag.remove_key, Tag.insert_text, Tag.push, genreKeep]
    rw [filter_twice]

theorem toTagTrackNo_items (a : AudioTags) (t : Tag) :
    (toTagTrackNo a t).items = applyStep (trackNoStep a) t.items := by
  cases h : a.track with
  | none => simp [toTagTrackNo, trackNoStep, applyStep, trackNoWrites, trackNoActive, h]
  | some pos =>
    cases hn : pos.no with
    | none =>
      simp [toTagTrackNo, trackNoStep, applyStep, trackNoWrites, trackNoActive, h, hn]
    | some n =>
      simp only [toTagTrackNo, trackNoStep, applyStep, trackNoWrites, trackNoActive, h, hn,
        Option.isSome_some, if_true, Tag.remove_key, Tag.insert_text, Tag.push, trackNoKeep]
      rw [filter_twice]

theorem toTagTrackOf_items (a : AudioTags) (t : Tag) :
    (toTagTrackOf a t).items = applyStep (trackOfStep a) t.items := by
  cases h : a.track with
  | none => simp [toTagTrackOf, trackOfStep, applyStep, trackOfWrites, trackOfActive, h]
  | some pos =>
    cases hn : pos.of with
    | none =>
      simp [toTagTrackOf, trackOfStep, applyStep, trackOfWrites, trackOfActive, h, hn]
    | some n =>
      simp only [toTagTrackOf, trackOfStep, applyStep, trackOfWrites, trackOfActive, h, hn,
        Option.isSome_some, if_true, Tag.remove_key, Tag.insert_text, Tag.push, trackOfKeep]
      rw [filter_twice]

theorem toTagDiscNo_items (a : AudioTags) (t : Tag) :
    (toTagDiscNo a t).items = applyStep (discNoStep a) t.items := by
  cases h : a.disc with
  | none => simp [toTagDiscNo, discNoStep, applyStep, discNoWrites, discNoActive, h]
  | some pos =>
    cases hn : pos.no with
    | none =>
      simp [toTagDiscNo, discNoStep, applyStep, discNoWrites, discNoActive, h, hn]
    | some n =>
      simp only [toTagDiscNo, discNoStep, applyStep, discNoWrites, discNoActive, h, hn,
        Option.isSome_some, if_true, Tag.remove_key, Tag.insert_text, Tag.push, discNoKeep]
      rw [filter_twice]

theorem toTagDiscOf_items (a : AudioTags) (t : Tag) :
    (toTagDiscOf a t).items = applyStep (discOfStep a) t.items := by
  cases h : a.disc with
  | none => simp [toTagDiscOf, discOfStep, applyStep, discOfWrites, discOfActive, h]
  | some pos =>
    cases hn : pos.of with
    | none =>
      simp [toTagDiscOf, discOfStep, applyStep, discOfWrites, discOfActive, h, hn]
    | some n =>
      simp only [toTagDiscOf, discOfStep, applyStep, discOfWrites, discOfActive, h, hn,
        Option.isSome_some, if_true, Tag.remove_key, Tag.insert_text, Tag.push, discOfKeep]
      rw [filter_twice]

theorem toTagAlbumArtists_items (a : AudioTags) (t : Tag) :
    (toTagAlbumArtists a t).items = applyStep (albumArtistsStep a) t.items := by
  cases h : a.album_artists with
  | none =>
    simp [toTagAlbumArtists, albumArtistsStep, applyStep, albumArtistsWrites,
      albumArtistsActive, h]
  | some l =>
    cases l with
    | nil =>
      simp [toTagAlbumArtists, albumArtistsStep, applyStep, albumArtistsWrites,
        albumArtistsActive, h]
    | cons x rest =>
      simp only [toTagAlbumArtists, albumArtistsStep, applyStep, albumArtistsWrites,
        albumArtistsActive, h, if_true, Tag.remove_key, Tag.push, albumArtistsKeep]

theorem toTagComment_items (a : AudioTags) (t : Tag) :
    (toTagComment a t).items = applyStep (commentStep a) t.items := by
  cases h : a.comment with
  | none => simp [toTagComment, commentStep, applyStep, commentWrites, h]
  | some v =>
    simp only [toTagComment, commentStep, applyStep, commentWrites, h, Option.isSome_some,
      if_true, Tag.remove_key, Tag.insert_text, Tag.push, commentKeep]
    rw [filter_twice]

/-! ## Items and pictures split cleanly across the blocks -/

theorem toTagTitle_pictures (a : AudioTags) (t : Tag) :
    (toTagTitle a t).pictures = t.pictures := by
  cases h : a.title <;> simp [toTagTitle, Tag.remove_key, Tag.insert_text, Tag.push, h]

theorem toTagArtists_pictures (a : AudioTags) (t : Tag) :
    (toTagArtists a t).pictures = t.pictures := by
  cases h : a.artists with
  | none => simp [toTagArtists, h]
  | some l =>
    cases l <;> simp [toTagArtists, Tag.remove_key, Tag.push, h]

theorem toTagAlbum_pictures (a : AudioTags) (t : Tag) :
    (toTagAlbum a t).pictures = t.pictures := by
  cases h : a.album <;> simp [toTagAlbum, Tag.remove_key, Tag.insert_text, Tag.push, h]

theorem toTagYear_pictures (a : AudioTags) (t : Tag) :
    (toTagYear a t).pictures = t.pictures := by
  cases h : a.year <;> simp [toTagYear, Tag.remove_key, Tag.insert_text, Tag.push, h]

theorem toTagGenre_pictures (a : AudioTags) (t : Tag) :
    (toTagGenre a t).pictures = t.pictures := by
  cases h : a.genre <;> simp [toTagGenre, Tag.remove_key, Tag.insert_text, Tag.push, h]

theorem toTagTrackNo_pictures (a : AudioTags) (t : Tag) :
    (toTagTrackNo a t).pictures = t.pictures := by
  cases h : a.track with
  | none => simp [toTagTrackNo, h]
  | some pos =>
    cases hn : pos.no <;>
      simp [toTagTrackNo, Tag.remove_key, Tag.insert_text, Tag.push, h, hn]

theorem toTagTrackOf_pictures (a : AudioTags) (t : Tag) :
    (toTagTrackOf a t).pictures = t.pictures := by
  cases h : a.track with
  | none => simp [toTagTrackOf, h]
  | some pos =>
    cases hn : pos.of <;>
      simp [toTagTrackOf, Tag.remove_key, Tag.insert_text, Tag.push, h, hn]

theorem toTagDiscNo_pictures (a : AudioTags) (t : Tag) :
    (toTagDiscNo a t).pictures = t.pictures := by
  cases h : a.disc with
  | none => simp [toTagDiscNo, h]
  | some pos =>
    cases hn : pos.no <;>
      simp [toTagDiscNo, Tag.remove_key, Tag.insert_text, Tag.push, h, hn]

theorem toTagDiscOf_pictures (a : AudioTags) (t : Tag) :
    (toTagDiscOf a t).pictures = t.pictures := by
  cases h : a.disc with
  | none => simp [toTagDiscOf, h]
  | some pos =>
    cases hn : pos.of <;>
      simp [toTagDiscOf, Tag.remove_key, Tag.insert_text, Tag.push, h, hn]

theorem toTagAlbumArtists_pictures (a : AudioTags) (t : Tag) :
    (toTagAlbumArtists a t).pictures = t.pictures := by
  cases h : a.album_artists with
  | none => simp [toTagAlbumArtists, h]
  | some l =>
    cases l <;> simp [toTagAlbumArtists, Tag.remove_key, Tag.push, h]

theorem toTagComment_pictures (a : AudioTags) (t : Tag) :
    (toTagComment a t).pictures = t.pictures := by
  cases h : a.comment <;> simp [toTagComment, Tag.remove_key, Tag.insert_text, Tag.push, h]

theorem foldl_push_picture_items (l : List Image) (t : Tag) :
    (l.foldl (fun t image => t.push_picture image.buildPicture) t).items = t.items := by
  induction l generalizing t with
  | nil => rfl
  | cons x rest ih =>
    rw [List.foldl_cons, ih]
    simp [Tag.push_picture]

theorem foldl_push_picture_pictures (l : List Image) (t : Tag) :
    (l.foldl (fun t image => t.push_picture image.buildPicture) t).pictures
      = t.pictures ++ l.map Image.buildPicture := by
  induction l generalizing t with
  | nil => simp
  | cons x rest ih =>
    rw [List.foldl_cons, ih]
    simp [Tag.push_picture]

theorem add_cover_image_items (sniff : List Nat → Option String) (t : Tag)
    (d : List Nat) (desc : Option String) (dm : MimeType) :
    (add_cover_image sniff t d desc dm).items = t.items := rfl

/-- The mime type `add_cover_image` stores: the sniffed kind when the
sniffer recognizes one, else the supplied default. -/
def resolveMime (sniff : List Nat → Option String) (dm : MimeType)
    (data : List Nat) : MimeType :=
  match (sniff data).map (fun kind => MimeType.from_str kind) with
  | some m => m
  | none => dm

theorem add_cover_image_pictures (sniff : List Nat → Option String) (t : Tag)
    (d : List Nat) (desc : Option String) (dm : MimeType) :
    (add_cover_image sniff t d desc dm).pictures
      = Picture.new_unchecked .CoverFront (some (resolveMime sniff dm d)) desc d
        :: t.pictures.filter (fun p => !(p.pic_type == PictureType.CoverFront)) := by
  simp [add_cover_image, resolveMime, List.reverse_append, List.filter_reverse,
    List.reverse_reverse]

theorem toTagImages_items (sniff : List Nat → Option String) (a : AudioTags) (t : Tag) :
    (toTagImages sniff a t).items = t.items := by
  cases h : a.all_images with
  | some l => simp [toTagImages, h, foldl_push_picture_items]
  | none =>
    cases hi : a.image with
    | some image => simp [toTagImages, h, hi, add_cover_image_items]
    | none => simp [toTagImages, h, hi]

/-- The picture list `to_tag` produces, as a function of the starting
picture list. -/
def picturesSpec (sniff : List Nat → Option String) (a : AudioTags)
    (ps : List Picture) : List Picture :=
  match a.all_images with
  | some all_images => (sortCoverFirst all_images).map Image.buildPicture
  | none =>
    match a.image with
    | some image =>
      Picture.new_unchecked .CoverFront
        (some (resolveMime sniff (((image.mime_type).map MimeType.from_str).getD .Jpeg)
          image.data))
        image.description image.data
        :: ps.filter (fun p => !(p.pic_type == PictureType.CoverFront))
    | none => ps

theorem toTagImages_pictures (sniff : List Nat → Option String) (a : AudioTags) (t : Tag) :
    (toTagImages sniff a t).pictures = picturesSpec sniff a t.pictures := by
  cases h : a.all_images with
  | some l => simp [toTagImages, picturesSpec, h, foldl_push_picture_pictures]
  | none =>
    cases hi : a.image with
    | some image => simp [toTagImages, picturesSpec, h, hi, add_cover_image_pictures]
    | none => simp [toTagImages, picturesSpec, h, hi]

/-- The item part of `to_tag` is exactly the block pipeline. -/
theorem to_tag_items (sniff : List Nat → Option String) (a : AudioTags) (t : Tag) :
    (AudioTags.to_tag sniff a t).items = applySteps t.items (stepsOf a) := by
  simp only [AudioTags.to_tag, applySteps, stepsOf, List.foldl_cons, List.foldl_nil,
    toTagImages_items, toTagComment_items, toTagAlbumArtists_items, toTagDiscOf_items,
    toTagDiscNo_items, toTagTrackOf_items, toTagTrackNo_items, toTagGenre_items,
    toTagYear_items, toTagAlbum_items, toTagArtists_items, toTagTitle_items]

/-- The picture part of `to_tag` only depends on the starting pictures. -/
theorem to_tag_pictures (sniff : List Nat → Option String) (a : AudioTags) (t : Tag) :
    (AudioTags.to_tag sniff a t).pictures = picturesSpec sniff a t.pictures := by
  simp only [AudioTags.to_tag, toTagImages_pictures, toTagComment_pictures,
    toTagAlbumArtists_pictures, toTagDiscOf_pictures, toTagDiscNo_pictures,
    toTagTrackOf_pictures, toTagTrackNo_pictures, toTagGenre_pictures,
    toTagYear_pictures, toTagAlbum_pictures, toTagArtists_pictures, toTagTitle_pictures]

/-! ## Side conditions of the pipeline for the blocks of to_tag -/

theorem stepsOf_hd (a : AudioTags) :
    (stepsOf a).Pairwise (fun s t => ∀ k, s.keep k = false → t.keep k = true) := by
  have h : List.Pairwise (fun p q => ∀ k, p k = false → q k = true)
      [titleKeep, artistsKeep, albumKeep, yearKeep, genreKeep, trackNoKeep, trackOfKeep,
       discNoKeep, discOfKeep, albumArtistsKeep, commentKeep] := by decide
  have hmap : (stepsOf a).map WStep.keep
      = [titleKeep, artistsKeep, albumKeep, yearKeep, genreKeep, trackNoKeep, trackOfKeep,
         discNoKeep, discOfKeep, albumArtistsKeep, commentKeep] := rfl
  exact List.pairwise_map.mp (hmap ▸ h)

theorem stepsOf_hw (a : AudioTags) :
    ∀ s ∈ stepsOf a, s.active = true → ∀ i ∈ s.writes, s.keep i.key = false := by
  intro s hs
  fin_cases hs
  · intro _ i hi
    cases h : a.title with
    | none => simp [titleStep, titleWrites, h] at hi
    | some v =>
      simp only [titleStep, titleWrites, h, List.mem_singleton] at hi
      subst hi
      rfl
  · intro _ i hi
    cases h : a.artists with
    | none => simp [artistsStep, artistsWrites, h] at hi
    | some l =>
      cases l with
      | nil => simp [artistsStep, artistsWrites, h] at hi
      | cons x rest =>
        simp only [artistsStep, artistsWrites, h, List.mem_cons, List.mem_singleton,
          List.not_mem_nil, or_false] at hi
        rcases hi with rfl | rfl <;> rfl
  · intro _ i hi
    cases h : a.album with
    | none => simp [albumStep, albumWrites, h] at hi
    | some v =>
      simp only [albumStep, albumWrites, h, List.mem_singleton] at hi
      subst hi
      rfl
  · intro _ i hi
    cases h : a.year with
    | none => simp [yearStep, yearWrites, h] at hi
    | some v =>
      simp only [yearStep, yearWrites, h, List.mem_cons, List.mem_singleton,
        List.not_mem_nil, or_false] at hi
      rcases hi with rfl | rfl <;> rfl
  · intro _ i hi
    cases h : a.genre with
    | none => simp [genreStep, genreWrites, h] at hi
    | some v =>
      simp only [genreStep, genreWrites, h, List.mem_singleton] at hi
      subst hi
      rfl
  · intro _ i hi
    cases h : a.track with
    | none => simp [trackNoStep, trackNoWrites, h] at hi
    | some pos =>
      cases hn : pos.no with
      | none => simp [trackNoStep, trackNoWrites, h, hn] at hi
      | some n =>
        simp only [trackNoStep, trackNoWrites, h, hn, List.mem_singleton] at hi
        subst hi
        rfl
  · intro _ i hi
    cases h : a.track with
    | none => simp [trackOfStep, trackOfWrites, h] at hi
    | some pos =>
      cases hn : pos.of with
      | none => simp [trackOfStep, trackOfWrites, h, hn] at hi
      | some n =>
        simp only [trackOfStep, trackOfWrites, h, hn, List.mem_singleton] at hi
        subst hi
        rfl
  · intro _ i hi
    cases h : a.disc with
    | none => simp [discNoStep, discNoWrites, h] at hi
    | some pos =>
      cases hn : pos.no with
      | none => simp [discNoStep, discNoWrites, h, hn] at hi
      | some n =>
        simp only [discNoStep, discNoWrites, h, hn, List.mem_singleton] at hi
        subst hi
        rfl
  · intro _ i hi
    cases h : a.disc with
    | none => simp [discOfStep, discOfWrites, h] at hi
    | some pos =>
      cases hn : pos.of with
      | none => simp [discOfStep, discOfWrites, h, hn] at hi
      | some n =>
        simp only [discOfStep, discOfWrites, h, hn, List.mem_singleton] at hi
        subst hi
        rfl
  · intro _ i hi
    cases h : a.album_artists with
    | none => simp [albumArtistsStep, albumArtistsWrites, h] at hi
    | some l =>
      cases l with
      | nil => simp [albumArtistsStep, albumArtistsWrites, h] at hi
      | cons x rest =>
        simp only [albumArtistsStep, albumArtistsWrites, h, List.mem_singleton] at hi
        subst hi
        rfl
  · intro _ i hi
    cases h : a.comment with
    | none => simp [commentStep, commentWrites, h] at hi
    | some v =>
      simp only [commentStep, commentWrites, h, List.mem_singleton] at hi
      subst hi
      rfl

/-! ## Frame lemmas: blocks do not touch other keys -/

theorem titleWrites_key (a : AudioTags) :
    ∀ i ∈ titleWrites a, i.key = ItemKey.TrackTitle := by
  intro i hi
  cases h : a.title <;> simp [titleWrites, h] at hi <;> simp [hi]

theorem artistsWrites_key (a : AudioTags) :
    ∀ i ∈ artistsWrites a, i.key = ItemKey.TrackArtist ∨ i.key = ItemKey.TrackArtists := by
  intro i hi
  cases h : a.artists with
  | none => simp [artistsWrites, h] at hi
  | some l =>
    cases l with
    | nil => simp [artistsWrites, h] at hi
    | cons x rest =>
      simp only [artistsWrites, h, List.mem_cons, List.mem_singleton,
        List.not_mem_nil, or_false] at hi
      rcases hi with rfl | rfl
      · exact Or.inl rfl
      · exact Or.inr rfl

theorem albumWrites_key (a : AudioTags) :
    ∀ i ∈ albumWrites a, i.key = ItemKey.AlbumTitle := by
  intro i hi
  cases h : a.album <;> simp [albumWrites, h] at hi <;> simp [hi]

theorem yearWrites_key (a : AudioTags) :
    ∀ i ∈ yearWrites a, i.key = ItemKey.Year ∨ i.key = ItemKey.RecordingDate := by
  intro i hi
  cases h : a.year with
  | none => simp [yearWrites, h] at hi
  | some y =>
    simp only [yearWrites, h, List.mem_cons, List.mem_singleton,
      List.not_mem_nil, or_false] at hi
    rcases hi with rfl | rfl
    · exact Or.inl rfl
    · exact Or.inr rfl

theorem genreWrites_key (a : AudioTags) :
    ∀ i ∈ genreWrites a, i.key = ItemKey.Genre := by
  intro i hi
  cases h : a.genre <;> simp [genreWrites, h] at hi <;> simp [hi]

theorem trackNoWrites_key (a : AudioTags) :
    ∀ i ∈ trackNoWrites a, i.key = ItemKey.TrackNumber := by
  intro i hi
  cases h : a.track with
  | none => simp [trackNoWrites, h] at hi
  | some pos =>
    cases hn : pos.no <;> simp [trackNoWrites, h, hn] at hi <;> simp [hi]

theorem trackOfWrites_key (a : AudioTags) :
    ∀ i ∈ trackOfWrites a, i.key = ItemKey.TrackTotal := by
  intro i hi
  cases h : a.track with
  | none => simp [trackOfWrites, h] at hi
  | some pos =>
    cases hn : pos.of <;> simp [trackOfWrites, h, hn] at hi <;> simp [hi]

theorem discNoWrites_key (a : AudioTags) :
    ∀ i ∈ discNoWrites a, i.key = ItemKey.DiscNumber := by
  intro i hi
  cases h : a.disc with
  | none => simp [discNoWrites, h] at hi
  | some pos =>
    cases hn : pos.no <;> simp [discNoWrites, h, hn] at hi <;> simp [hi]

theorem discOfWrites_key (a : AudioTags) :
    ∀ i ∈ discOfWrites a, i.key = ItemKey.DiscTotal := by
  intro i hi
  cases h : a.disc with
  | none => simp [discOfWrites, h] at hi
  | some pos =>
    cases hn : pos.of <;> simp [discOfWrites, h, hn] at hi <;> simp [hi]

theorem albumArtistsWrites_key (a : AudioTags) :
    ∀ i ∈ albumArtistsWrites a, i.key = ItemKey.AlbumArtist := by
  intro i hi
  cases h : a.album_artists with
  | none => simp [albumArtistsWrites, h] at hi
  | some l =>
    cases l with
    | nil => simp [albumArtistsWrites, h] at hi
    | cons x rest =>
      simp only [albumArtistsWrites, h, List.mem_singleton] at hi
      simp [hi]

theorem commentWrites_key (a : AudioTags) :
    ∀ i ∈ commentWrites a, i.key = ItemKey.Comment := by
  intro i hi
  cases h : a.comment <;> simp [commentWrites, h] at hi <;> simp [hi]

/-- A block neither removes nor writes items of a key it does not own. -/
theorem filterKey_applyStep_frame (s : WStep) (l : List TagItem) (k : ItemKey)
    (h1 : s.keep k = true ∨ s.active = false)
    (h2 : s.active = true → ∀ i ∈ s.writes, ¬(i.key = k)) :
    (applyStep s l).filter (fun i => i.key == k) = l.filter (fun i => i.key == k) := by
  by_cases hact : s.active = true
  · rcases h1 with h1 | h1
    · simp only [applyStep, hact, if_true, List.filter_append]
      have hw : s.writes.filter (fun i => i.key == k) = [] :=
        List.filter_eq_nil_iff.mpr (fun i hi => by simpa using h2 hact i hi)
      rw [hw, List.append_nil, List.filter_filter]
      refine List.filter_congr (fun i _ => ?_)
      by_cases hk : i.key = k
      · rw [hk, h1]
        simp
      · simp [hk]
    · rw [h1] at hact
      cases hact
  · simp only [Bool.not_eq_true] at hact
    simp [applyStep, hact]

/-- Iterated frame lemma over a block sequence. -/
theorem filterKey_applySteps_frame (ss : List WStep) (l : List TagItem) (k : ItemKey)
    (h1 : ∀ s ∈ ss, s.keep k = true ∨ s.active = false)
    (h2 : ∀ s ∈ ss, s.active = true → ∀ i ∈ s.writes, ¬(i.key = k)) :
    (applySteps l ss).filter (fun i => i.key == k) = l.filter (fun i => i.key == k) := by
  induction ss generalizing l with
  | nil => rfl
  | cons s rest ih =>
    have hstep : applySteps l (s :: rest) = applySteps (applyStep s l) rest := rfl
    rw [hstep, ih _ (fun t ht => h1 t (List.mem_cons_of_mem s ht))
      (fun t ht => h2 t (List.mem_cons_of_mem s ht)),
      filterKey_applyStep_frame s l k (h1 s (List.mem_cons_self _ _))
      (h2 s (List.mem_cons_self _ _))]

/-- Whether some block of `to_tag` writes or removes the given key for the
given `AudioTags`. -/
def keyWriter (a : AudioTags) : ItemKey → Bool
  | .TrackTitle => a.title.isSome
  | .TrackArtist => artistsActive a
  | .TrackArtists => artistsActive a
  | .AlbumTitle => a.album.isSome
  | .Year => a.year.isSome
  | .RecordingDate => a.year.isSome
  | .Genre => a.genre.isSome
  | .TrackNumber => trackNoActive a
  | .TrackTotal => trackOfActive a
  | .DiscNumber => discNoActive a
  | .DiscTotal => discOfActive a
  | .AlbumArtist => albumArtistsActive a
  | .Comment => a.comment.isSome

/-- `to_tag` leaves the items of any key no block writes untouched. -/
theorem to_tag_get_items_frame (sniff : List Nat → Option String) (a : AudioTags)
    (t : Tag) (k : ItemKey) (h : keyWriter a k = false) :
    (AudioTags.to_tag sniff a t).get_items k = t.get_items k := by
  have hitems := to_tag_items sniff a t
  unfold Tag.get_items
  rw [hitems]
  refine filterKey_applySteps_frame (stepsOf a) t.items k ?_ ?_
  · intro s hs
    fin_cases hs
    · by_cases hk : k = ItemKey.TrackTitle
      · subst hk; exact Or.inr h
      · exact Or.inl (by simp [titleStep, titleKeep, hk])
    · by_cases hk1 : k = ItemKey.TrackArtist
      · subst hk1; exact Or.inr h
      · by_cases hk2 : k = ItemKey.TrackArtists
        · subst hk2; exact Or.inr h
        · exact Or.inl (by simp [artistsStep, artistsKeep, hk1, hk2])
    · by_cases hk : k = ItemKey.AlbumTitle
      · subst hk; exact Or.inr h
      · exact Or.inl (by simp [albumStep, albumKeep, hk])
    · by_cases hk1 : k = ItemKey.Year
      · subst hk1; exact Or.inr h
      · by_cases hk2 : k = ItemKey.RecordingDate
        · subst hk2; exact Or.inr h
        · exact Or.inl (by simp [yearStep, yearKeep, hk1, hk2])
    · by_cases hk : k = ItemKey.Genre
      · subst hk; exact Or.inr h
      · exact Or.inl (by simp [genreStep, genreKeep, hk])
    · by_cases hk : k = ItemKey.TrackNumber
      · subst hk; exact Or.inr h
      · exact Or.inl (by simp [trackNoStep, trackNoKeep, hk])
    · by_cases hk : k = ItemKey.TrackTotal
      · subst hk; exact Or.inr h
      · exact Or.inl (by simp [trackOfStep, trackOfKeep, hk])
    · by_cases hk : k = ItemKey.DiscNumber
      · subst hk; exact Or.inr h
      · exact Or.inl (by simp [discNoStep, discNoKeep, hk])
    · by_cases hk : k = ItemKey.DiscTotal
      · subst hk; exact Or.inr h
      · exact Or.inl (by simp [discOfStep, discOfKeep, hk])
    · by_cases hk : k = ItemKey.AlbumArtist
      · subst hk; exact Or.inr h
      · exact Or.inl (by simp [albumArtistsStep, albumArtistsKeep, hk])
    · by_cases hk : k = ItemKey.Comment
      · subst hk; exact Or.inr h
      · exact Or.inl (by simp [commentStep, commentKeep, hk])
  · intro s hs
    fin_cases hs
    · intro hact i hi heq
      have hkey := titleWrites_key a i hi
      rw [hkey] at heq
      subst heq
      have h2 : a.title.isSome = false := h
      rw [show (titleStep a).active = a.title.isSome from rfl, h2] at hact
      cases hact
    · intro hact i hi heq
      rcases artistsWrites_key a i hi with hkey | hkey <;>
        · rw [hkey] at heq
          subst heq
          have h2 : artistsActive a = false := h
          rw [show (artistsStep a).active = artistsActive a from rfl, h2] at hact
          cases hact
    · intro hact i hi heq
      have hkey := albumWrites_key a i hi
      rw [hkey] at heq
      subst heq
      have h2 : a.album.isSome = false := h
      rw [show (albumStep a).active = a.album.isSome from rfl, h2] at hact
      cases hact
    · intro hact i hi heq
      rcases yearWrites_key a i hi with hkey | hkey <;>
        · rw [hkey] at heq
          subst heq
          have h2 : a.year.isSome = false := h
          rw [show (yearStep a).active = a.year.isSome from rfl, h2] at hact
          cases hact
    · intro hact i hi heq
      have hkey := genreWrites_key a i hi
      rw [hkey] at heq
      subst heq
      have h2 : a.genre.isSome = false := h
      rw [show (genreStep a).active = a.genre.isSome from rfl, h2] at hact
      cases hact
    · intro hact i hi heq
      have hkey := trackNoWrites_key a i hi
      rw [hkey] at heq
      subst heq
      have h2 : trackNoActive a = false := h
      rw [show (trackNoStep a).active = trackNoActive a from rfl, h2] at hact
      cases hact
    · intro hact i hi heq
      have hkey := trackOfWrites_key a i hi
      rw [hkey] at heq
      subst heq
      have h2 : trackOfActive a = false := h
      rw [show (trackOfStep a).active = trackOfActive a from rfl, h2] at hact
      cases hact
    · intro hact i hi heq
      have hkey := discNoWrites_key a i hi
      rw [hkey] at heq
      subst heq
      have h2 : discNoActive a = false := h
      rw [show (discNoStep a).active = discNoActive a from rfl, h2] at hact
      cases hact
    · intro hact i hi heq
      have hkey := discOfWrites_key a i hi
      rw [hkey] at heq
      subst heq
      have h2 : discOfActive a = false := h
      rw [show (discOfStep a).active = discOfActive a from rfl, h2] at hact
      cases hact
    · intro hact i hi heq
      have hkey := albumArtistsWrites_key a i hi
      rw [hkey] at heq
      subst heq
      have h2 : albumArtistsActive a = false := h
      rw [show (albumArtistsStep a).active = albumArtistsActive a from rfl, h2] at hact
      cases hact
    · intro hact i hi heq
      have hkey := commentWrites_key a i hi
      rw [hkey] at heq
      subst heq
      have h2 : a.comment.isSome = false := h
      rw [show (commentStep a).active = a.comment.isSome from rfl, h2] at hact
      cases hact

/-! ## Tag extensionality, picture idempotence, and cover-sort facts -/

theorem Tag.eq_of_parts {a b : Tag} (h1 : a.items = b.items)
    (h2 : a.pictures = b.pictures) : a = b := by
  cases a
  cases b
  simp_all

theorem picturesSpec_idem (sniff : List Nat → Option String) (a : AudioTags)
    (ps : List Picture) :
    picturesSpec sniff a (picturesSpec sniff a ps) = picturesSpec sniff a ps := by
  cases h : a.all_images with
  | some l => simp [picturesSpec, h]
  | none =>
    cases hi : a.image with
    | none => simp [picturesSpec, h, hi]
    | some image =>
      simp only [picturesSpec, h, hi]
      rw [List.filter_cons]
      simp only [Picture.new_unchecked]
      simp [filter_twice]

theorem sortCoverFirst_filter_not_cover (l : List Image) :
    (sortCoverFirst l).filter (fun i => !(i.pic_type == AudioImageType.CoverFront))
      = l.filter (fun i => !(i.pic_type == AudioImageType.CoverFront)) := by
  unfold sortCoverFirst
  rw [List.filter_append]
  have h1 : (l.filter (fun i => i.pic_type == AudioImageType.CoverFront)).filter
      (fun i => !(i.pic_type == AudioImageType.CoverFront)) = [] := by
    refine List.filter_eq_nil_iff.mpr (fun i hi => ?_)
    have := (List.mem_filter.mp hi).2
    simp_all
  rw [h1, filter_twice, List.nil_append]

theorem sortCoverFirst_cover_head (l : List Image)
    (h : ∃ i ∈ sortCoverFirst l, i.pic_type = AudioImageType.CoverFront) :
    ∃ y, (sortCoverFirst l).head? = some y ∧ y.pic_type = AudioImageType.CoverFront := by
  rcases h with ⟨i, hi, hc⟩
  have hmem : i ∈ l := by
    unfold sortCoverFirst at hi
    rcases List.mem_append.mp hi with hi | hi
    · exact (List.mem_filter.mp hi).1
    · exact (List.mem_filter.mp hi).1
  have hmemf : i ∈ l.filter (fun j => j.pic_type == AudioImageType.CoverFront) :=
    List.mem_filter.mpr ⟨hmem, by simp [hc]⟩
  unfold sortCoverFirst
  cases hh : l.filter (fun j => j.pic_type == AudioImageType.CoverFront) with
  | nil => rw [hh] at hmemf; cases hmemf
  | cons y ys =>
    refine ⟨y, by simp [hh], ?_⟩
    have : y ∈ l.filter (fun j => j.pic_type == AudioImageType.CoverFront) := by
      rw [hh]; exact List.mem_cons_self _ _
    simpa using (List.mem_filter.mp this).2

/-! ## Claim theorems -/

/-- A concrete sniffer that recognizes nothing (for witnesses). -/
def sniffNone : List Nat → Option String := fun _ => none

/-- A concrete tag whose only item is a singular artist (for C1). -/
def exArtistTag : Tag := ⟨[⟨.TrackArtist, .text "Alice"⟩], []⟩

/-- C4: applying the same AudioTags twice to a tag equals applying it once. -/
theorem c4_to_tag_idempotent (sniff : List Nat → Option String) (a : AudioTags) (t : Tag) :
    AudioTags.to_tag sniff a (AudioTags.to_tag sniff a t) = AudioTags.to_tag sniff a t := by
  refine Tag.eq_of_parts ?_ ?_
  · rw [to_tag_items, to_tag_items]
    exact applySteps_idem t.items (stepsOf_hw a) (stepsOf_hd a)
  · rw [to_tag_pictures, to_tag_pictures]
    exact picturesSpec_idem sniff a t.pictures

/-- C8: round-trip of every named taxonomy case. -/
theorem c8_taxonomy_roundtrip :
    ∀ x : AudioImageType, x ≠ .Other →
      AudioImageType.from_picture_type (AudioImageType.build_picture_type x) = x := by
  decide

theorem c8_taxonomy_roundtrip_witness :
    AudioImageType.from_picture_type (AudioImageType.build_picture_type .BandLogo)
      = AudioImageType.BandLogo :=
  c8_taxonomy_roundtrip .BandLogo (by decide)

/-- C1 (amended): with no multi-value artists item, from_tag yields the
empty artists list, never None; the singular accessor is not consulted. -/
theorem c1_amended_no_multivalue_empty (t : Tag)
    (h : t.get_items .TrackArtists = []) :
    (AudioTags.from_tag t).artists = some [] := by
  simp [AudioTags.from_tag, get_values_from_item, h]

theorem c1_counterexample_singular_not_used :
    exArtistTag.get_items .TrackArtists = []
  ∧ Tag.artist exArtistTag = some "Alice"
  ∧ (AudioTags.from_tag exArtistTag).artists = some []
  ∧ (AudioTags.from_tag exArtistTag).artists ≠ some ["Alice"] := by
  refine ⟨rfl, rfl, rfl, ?_⟩
  decide

theorem c1_amended_witness :
    (AudioTags.from_tag exArtistTag).artists = some [] :=
  c1_amended_no_multivalue_empty exArtistTag rfl

/-- C10: a present tag always normalizes with present artists lists, and
differs from the all-absent default produced for an absent tag. -/
theorem c10_present_lists (t : Tag) :
    (∃ l, (generic_read_tags (some t)).artists = some l)
  ∧ (∃ l, (generic_read_tags (some t)).album_artists = some l)
  ∧ generic_read_tags (some t) ≠ generic_read_tags none := by
  refine ⟨⟨_, rfl⟩, ⟨_, rfl⟩, ?_⟩
  intro h
  have := congrArg AudioTags.artists h
  simp [generic_read_tags, AudioTags.from_tag, AudioTags.defaultTags] at this

/-- C7: position fields are absent exactly when both paired accessors are. -/
theorem c7_position_presence (t : Tag) :
    ((AudioTags.from_tag t).track = none ↔ t.track = none ∧ t.track_total = none)
  ∧ ((t.track ≠ none ∨ t.track_total ≠ none) →
      (AudioTags.from_tag t).track = some ⟨t.track, t.track_total⟩)
  ∧ ((AudioTags.from_tag t).disc = none ↔ t.disk = none ∧ t.disk_total = none)
  ∧ ((t.disk ≠ none ∨ t.disk_total ≠ none) →
      (AudioTags.from_tag t).disc = some ⟨t.disk, t.disk_total⟩) := by
  cases h1 : t.track <;> cases h2 : t.track_total <;>
    cases h3 : t.disk <;> cases h4 : t.disk_total <;>
      simp [AudioTags.from_tag, h1, h2, h3, h4]

theorem c7_position_presence_witness :
    (AudioTags.from_tag exArtistTag).track = none := by
  have := (c7_position_presence exArtistTag).1
  exact this.mpr ⟨rfl, rfl⟩

/-- C6: the convenience cover accessor agrees with the full picture list. -/
theorem c6_image_all_images_consistency (t : Tag) (x : Image) :
    (AudioTags.from_tag t).image = some x ↔
      ∃ l, (AudioTags.from_tag t).all_images = some l ∧ l.head? = some x ∧
        x.pic_type = AudioImageType.CoverFront := by
  cases hs : sortCoverFirst (t.pictures.map Image.from_picture) with
  | nil => simp [AudioTags.from_tag, hs]
  | cons y ys =>
    by_cases hc : y.pic_type = AudioImageType.CoverFront
    · constructor
      · intro h
        simp only [AudioTags.from_tag, hs, List.head?_cons, hc] at h
        simp only [beq_self_eq_true, if_true] at h
        refine ⟨y :: ys, ?_, ?_, ?_⟩
        · simp [AudioTags.from_tag, hs]
        · simp [← Option.some.inj h]
        · rw [← Option.some.inj h]; exact hc
      · rintro ⟨l, hl, hh, hx⟩
        simp only [AudioTags.from_tag, hs, List.isEmpty_cons, Bool.false_eq_true,
          if_false, Option.some.injEq] at hl
        subst hl
        simp only [List.head?_cons, Option.some.injEq] at hh
        subst hh
        simp [AudioTags.from_tag, hs, hc]
    · constructor
      · intro h
        simp only [AudioTags.from_tag, hs, List.head?_cons] at h
        rw [if_neg (by simpa using hc)] at h
        cases h
      · rintro ⟨l, hl, hh, hx⟩
        simp only [AudioTags.from_tag, hs, List.isEmpty_cons, Bool.false_eq_true,
          if_false, Option.some.injEq] at hl
        subst hl
        simp only [List.head?_cons, Option.some.injEq] at hh
        subst hh
        exact absurd hx hc

theorem c6_image_all_images_consistency_witness :
    (AudioTags.from_tag exArtistTag).image = none := by
  cases himg : (AudioTags.from_tag exArtistTag).image with
  | none => rfl
  | some z =>
    rcases (c6_image_all_images_consistency exArtistTag z).mp himg with ⟨l, hl, -, -⟩
    exact absurd hl (by simp [AudioTags.from_tag, exArtistTag, sortCoverFirst])

/-- C3: the stored cover mime is sniff-first, then caller default, with the
application default jpeg when the image carries no mime string. -/
theorem c3_cover_mime_resolution (sniff : List Nat → Option String) (a : AudioTags)
    (t : Tag) (img : Image) (h1 : a.all_images = none) (h2 : a.image = some img) :
    ∃ m, (AudioTags.to_tag sniff a t).pictures.head?
        = some (Picture.new_unchecked .CoverFront (some m) img.description img.data)
      ∧ (∀ s, sniff img.data = some s → m = MimeType.from_str s)
      ∧ (sniff img.data = none →
          m = ((img.mime_type).map MimeType.from_str).getD .Jpeg)
      ∧ (sniff img.data = none → img.mime_type = none → m = MimeType.Jpeg) := by
  refine ⟨resolveMime sniff (((img.mime_type).map MimeType.from_str).getD .Jpeg) img.data,
    ?_, ?_, ?_, ?_⟩
  · rw [to_tag_pictures]
    simp [picturesSpec, h1, h2]
  · intro s hsniff
    simp [resolveMime, hsniff]
  · intro hsniff
    simp [resolveMime, hsniff]
  · intro hsniff hmime
    simp [resolveMime, hsniff, hmime]

theorem c3_cover_mime_resolution_witness :
    ∃ m, (AudioTags.to_tag sniffNone
        { AudioTags.defaultTags with image := some ⟨[7], .CoverFront, none, none⟩ }
        exArtistTag).pictures.head?
        = some (Picture.new_unchecked .CoverFront (some m) none [7])
      ∧ m = MimeType.Jpeg := by
  rcases c3_cover_mime_resolution sniffNone
      { AudioTags.defaultTags with image := some ⟨[7], .CoverFront, none, none⟩ }
      exArtistTag ⟨[7], .CoverFront, none, none⟩ rfl rfl with ⟨m, hm, -, -, hj⟩
  exact ⟨m, hm, hj rfl rfl⟩

theorem buildPicture_cover_iff (i : Image) :
    (Image.buildPicture i).pic_type = PictureType.CoverFront ↔
      i.pic_type = AudioImageType.CoverFront := by
  cases h : i.pic_type <;>
    simp [Image.buildPicture, Picture.new_unchecked, AudioImageType.build_picture_type, h]

theorem buildPicture_not_cover_pred (i : Image) :
    (!((Image.buildPicture i).pic_type == PictureType.CoverFront))
      = (!(i.pic_type == AudioImageType.CoverFront)) := by
  cases h : i.pic_type <;>
    simp [Image.buildPicture, Picture.new_unchecked, AudioImageType.build_picture_type, h]

/-- C5: after normalization, full replace, and cover-only replace, any
cover-front picture sits at index 0 and the other pictures keep their
relative input order. -/
theorem c5_cover_first :
    (∀ (t : Tag) (l : List Image), (AudioTags.from_tag t).all_images = some l →
       ((∃ i ∈ l, i.pic_type = AudioImageType.CoverFront) →
         ∃ y, l.head? = some y ∧ y.pic_type = AudioImageType.CoverFront)
       ∧ l.filter (fun i => !(i.pic_type == AudioImageType.CoverFront))
           = (t.pictures.map Image.from_picture).filter
               (fun i => !(i.pic_type == AudioImageType.CoverFront)))
  ∧ (∀ (sniff : List Nat → Option String) (a : AudioTags) (t : Tag) (imgs : List Image),
       a.all_images = some imgs →
       ((∃ p ∈ (AudioTags.to_tag sniff a t).pictures,
            p.pic_type = PictureType.CoverFront) →
         ∃ y, (AudioTags.to_tag sniff a t).pictures.head? = some y ∧
           y.pic_type = PictureType.CoverFront)
       ∧ (AudioTags.to_tag sniff a t).pictures.filter
           (fun p => !(p.pic_type == PictureType.CoverFront))
           = (imgs.filter
               (fun i => !(i.pic_type == AudioImageType.CoverFront))).map Image.buildPicture)
  ∧ (∀ (sniff : List Nat → Option String) (t : Tag) (d : List Nat)
       (desc : Option String) (dm : MimeType),
       (∃ y, (add_cover_image sniff t d desc dm).pictures.head? = some y ∧
          y.pic_type = PictureType.CoverFront)
       ∧ (add_cover_image sniff t d desc dm).pictures.filter
           (fun p => !(p.pic_type == PictureType.CoverFront))
           = t.pictures.filter (fun p => !(p.pic_type == PictureType.CoverFront))) := by
  refine ⟨?_, ?_, ?_⟩
  · intro t l hl
    cases hs : sortCoverFirst (t.pictures.map Image.from_picture) with
    | nil => simp [AudioTags.from_tag, hs] at hl
    | cons y ys =>
      have hleq : l = y :: ys := by
        simp only [AudioTags.from_tag, hs, List.isEmpty_cons, Bool.false_eq_true,
          if_false, Option.some.injEq] at hl
        exact hl.symm
      subst hleq
      constructor
      · intro hex
        rw [← hs]
        exact sortCoverFirst_cover_head _ (hs ▸ hex)
      · rw [← hs]
        exact sortCoverFirst_filter_not_cover _
  · intro sniff a t imgs hi
    have hp : (AudioTags.to_tag sniff a t).pictures
        = (sortCoverFirst imgs).map Image.buildPicture := by
      rw [to_tag_pictures]
      simp [picturesSpec, hi]
    rw [hp]
    constructor
    · rintro ⟨p, hp2, hcov⟩
      rcases List.mem_map.mp hp2 with ⟨i, hiMem, rfl⟩
      have hic : i.pic_type = AudioImageType.CoverFront :=
        (buildPicture_cover_iff i).mp hcov
      rcases sortCoverFirst_cover_head imgs ⟨i, hiMem, hic⟩ with ⟨y, hy, hyc⟩
      cases hh : sortCoverFirst imgs with
      | nil => rw [hh] at hy; cases hy
      | cons z zs =>
        rw [hh] at hy
        simp only [List.head?_cons, Option.some.injEq] at hy
        subst hy
        refine ⟨Image.buildPicture z, ?_, (buildPicture_cover_iff z).mpr hyc⟩
        simp
    · rw [List.filter_map]
      congr 1
      rw [show ((fun p => !(p.pic_type == PictureType.CoverFront)) ∘ Image.buildPicture)
            = (fun i : Image => !(i.pic_type == AudioImageType.CoverFront)) from
          funext (fun i => buildPicture_not_cover_pred i)]
      exact sortCoverFirst_filter_not_cover imgs
  · intro sniff t d desc dm
    rw [add_cover_image_pictures]
    constructor
    · exact ⟨_, rfl, rfl⟩
    · rw [List.filter_cons]
      simp only [Picture.new_unchecked]
      simp [filter_twice]

/-- A concrete cover-front image (for witnesses). -/
def exCover : Image := ⟨[1], .CoverFront, none, none⟩

/-- A concrete cover-back image (for witnesses). -/
def exBack : Image := ⟨[2], .CoverBack, none, none⟩

theorem c5_cover_first_witness :
    (AudioTags.to_tag sniffNone
      { AudioTags.defaultTags with all_images := some [exBack, exCover] }
      exArtistTag).pictures.filter (fun p => !(p.pic_type == PictureType.CoverFront))
      = ([exBack, exCover].filter
          (fun i => !(i.pic_type == AudioImageType.CoverFront))).map Image.buildPicture :=
  (c5_cover_first.2.1 sniffNone
    { AudioTags.defaultTags with all_images := some [exBack, exCover] }
    exArtistTag [exBack, exCover] rfl).2

theorem artists_applyStep_filter_artist (a : AudioTags) (x : String)
    (ha : a.artists = some [x]) (l : List TagItem) :
    (applyStep (artistsStep a) l).filter (fun i => i.key == ItemKey.TrackArtist)
      = [⟨.TrackArtist, .text x⟩] := by
  have hact : (artistsStep a).active = true := by
    simp [artistsStep, artistsActive, ha]
  simp only [applyStep, hact, if_true, List.filter_append]
  have h1 : ((l.filter (fun i => (artistsStep a).keep i.key)).filter
      (fun i => i.key == ItemKey.TrackArtist)) = [] := by
    rw [List.filter_filter]
    refine List.filter_eq_nil_iff.mpr (fun i _ => ?_)
    by_cases hk : i.key = ItemKey.TrackArtist
    · simp [artistsStep, artistsKeep, hk]
    · simp [hk]
  have h2 : ((artistsStep a).writes.filter (fun i => i.key == ItemKey.TrackArtist))
      = [⟨.TrackArtist, .text x⟩] := by
    simp only [artistsStep, artistsWrites, ha]
    rfl
  rw [h1, h2, List.nil_append]

theorem artists_applyStep_filter_artists (a : AudioTags) (x : String)
    (ha : a.artists = some [x]) (l : List TagItem) :
    (applyStep (artistsStep a) l).filter (fun i => i.key == ItemKey.TrackArtists)
      = [⟨.TrackArtists, .text x⟩] := by
  have hact : (artistsStep a).active = true := by
    simp [artistsStep, artistsActive, ha]
  simp only [applyStep, hact, if_true, List.filter_append]
  have h1 : ((l.filter (fun i => (artistsStep a).keep i.key)).filter
      (fun i => i.key == ItemKey.TrackArtists)) = [] := by
    rw [List.filter_filter]
    refine List.filter_eq_nil_iff.mpr (fun i _ => ?_)
    by_cases hk : i.key = ItemKey.TrackArtists
    · simp [artistsStep, artistsKeep, hk]
    · simp [hk]
  have h2 : ((artistsStep a).writes.filter (fun i => i.key == ItemKey.TrackArtists))
      = [⟨.TrackArtists, .text (String.intercalate ", " [x])⟩] := by
    simp only [artistsStep, artistsWrites, ha]
    rfl
  rw [h1, h2, List.nil_append]
  rfl

/-- C2: a singleton artists list writes both artist items, each holding the
single value, with prior items for the two keys removed. -/
theorem c2_singleton_artists (sniff : List Nat → Option String) (a : AudioTags)
    (t : Tag) (x : String) (ha : a.artists = some [x]) :
    (AudioTags.to_tag sniff a t).get_items .TrackArtist
        = [⟨.TrackArtist, .text x⟩]
  ∧ (AudioTags.to_tag sniff a t).get_items .TrackArtists
        = [⟨.TrackArtists, .text x⟩] := by
  have hsplit : applySteps t.items (stepsOf a)
      = applySteps (applyStep (artistsStep a) (applyStep (titleStep a) t.items))
        [albumStep a, yearStep a, genreStep a, trackNoStep a, trackOfStep a,
         discNoStep a, discOfStep a, albumArtistsStep a, commentStep a] := rfl
  have h2gen : ∀ k0 : ItemKey, k0 = ItemKey.TrackArtist ∨ k0 = ItemKey.TrackArtists →
      ∀ s ∈ [albumStep a, yearStep a, genreStep a, trackNoStep a, trackOfStep a,
        discNoStep a, discOfStep a, albumArtistsStep a, commentStep a],
      s.active = true → ∀ i ∈ s.writes, ¬(i.key = k0) := by
    intro k0 hk0 s hs
    fin_cases hs
    · intro _ i hi heq
      rw [albumWrites_key a i hi] at heq
      rcases hk0 with rfl | rfl <;> cases heq
    · intro _ i hi heq
      rcases yearWrites_key a i hi with hk | hk <;>
        (rw [hk] at heq; rcases hk0 with rfl | rfl <;> cases heq)
    · intro _ i hi heq
      rw [genreWrites_key a i hi] at heq
      rcases hk0 with rfl | rfl <;> cases heq
    · intro _ i hi heq
      rw [trackNoWrites_key a i hi] at heq
      rcases hk0 with rfl | rfl <;> cases heq
    · intro _ i hi heq
      rw [trackOfWrites_key a i hi] at heq
      rcases hk0 with rfl | rfl <;> cases heq
    · intro _ i hi heq
      rw [discNoWrites_key a i hi] at heq
      rcases hk0 with rfl | rfl <;> cases heq
    · intro _ i hi heq
      rw [discOfWrites_key a i hi] at heq
      rcases hk0 with rfl | rfl <;> cases heq
    · intro _ i hi heq
      rw [albumArtistsWrites_key a i hi] at heq
      rcases hk0 with rfl | rfl <;> cases heq
    · intro _ i hi heq
      rw [commentWrites_key a i hi] at heq
      rcases hk0 with rfl | rfl <;> cases heq
  constructor
  · show (AudioTags.to_tag sniff a t).items.filter
        (fun i => i.key == ItemKey.TrackArtist) = _
    rw [to_tag_items, hsplit,
      filterKey_applySteps_frame _ _ ItemKey.TrackArtist
        (by intro s hs; fin_cases hs <;> exact Or.inl rfl)
        (h2gen ItemKey.TrackArtist (Or.inl rfl))]
    exact artists_applyStep_filter_artist a x ha _
  · show (AudioTags.to_tag sniff a t).items.filter
        (fun i => i.key == ItemKey.TrackArtists) = _
    rw [to_tag_items, hsplit,
      filterKey_applySteps_frame _ _ ItemKey.TrackArtists
        (by intro s hs; fin_cases hs <;> exact Or.inl rfl)
        (h2gen ItemKey.TrackArtists (Or.inr rfl))]
    exact artists_applyStep_filter_artists a x ha _

theorem c2_singleton_artists_witness :
    (AudioTags.to_tag sniffNone
        { AudioTags.defaultTags with artists := some ["Solo"] } exArtistTag).get_items
        .TrackArtists = [⟨.TrackArtists, .text "Solo"⟩] :=
  (c2_singleton_artists sniffNone
    { AudioTags.defaultTags with artists := some ["Solo"] } exArtistTag "Solo" rfl).2

/-- C9: absent fields leave their underlying items untouched; empty artist
lists write and remove nothing; absent images leave pictures untouched. -/
theorem c9_partial_update (sniff : List Nat → Option String) (a : AudioTags) (t : Tag) :
    (a.title = none →
      (AudioTags.to_tag sniff a t).get_items .TrackTitle = t.get_items .TrackTitle)
  ∧ ((a.artists = none ∨ a.artists = some []) →
      (AudioTags.to_tag sniff a t).get_items .TrackArtist = t.get_items .TrackArtist
      ∧ (AudioTags.to_tag sniff a t).get_items .TrackArtists
          = t.get_items .TrackArtists)
  ∧ (a.album = none →
      (AudioTags.to_tag sniff a t).get_items .AlbumTitle = t.get_items .AlbumTitle)
  ∧ (a.year = none →
      (AudioTags.to_tag sniff a t).get_items .Year = t.get_items .Year
      ∧ (AudioTags.to_tag sniff a t).get_items .RecordingDate
          = t.get_items .RecordingDate)
  ∧ (a.genre = none →
      (AudioTags.to_tag sniff a t).get_items .Genre = t.get_items .Genre)
  ∧ (a.track = none →
      (AudioTags.to_tag sniff a t).get_items .TrackNumber = t.get_items .TrackNumber
      ∧ (AudioTags.to_tag sniff a t).get_items .TrackTotal = t.get_items .TrackTotal)
  ∧ (a.disc = none →
      (AudioTags.to_tag sniff a t).get_items .DiscNumber = t.get_items .DiscNumber
      ∧ (AudioTags.to_tag sniff a t).get_items .DiscTotal = t.get_items .DiscTotal)
  ∧ ((a.album_artists = none ∨ a.album_artists = some []) →
      (AudioTags.to_tag sniff a t).get_items .AlbumArtist = t.get_items .AlbumArtist)
  ∧ (a.comment = none →
      (AudioTags.to_tag sniff a t).get_items .Comment = t.get_items .Comment)
  ∧ (a.all_images = none → a.image = none →
      (AudioTags.to_tag sniff a t).pictures = t.pictures) := by
  refine ⟨?_, ?_, ?_, ?_, ?_, ?_, ?_, ?_, ?_, ?_⟩
  · intro h
    exact to_tag_get_items_frame sniff a t _ (by simp [keyWriter, h])
  · intro h
    constructor
    · refine to_tag_get_items_frame sniff a t _ ?_
      rcases h with h | h <;> simp [keyWriter, artistsActive, h]
    · refine to_tag_get_items_frame sniff a t _ ?_
      rcases h with h | h <;> simp [keyWriter, artistsActive, h]
  · intro h
    exact to_tag_get_items_frame sniff a t _ (by simp [keyWriter, h])
  · intro h
    exact ⟨to_tag_get_items_frame sniff a t _ (by simp [keyWriter, h]),
      to_tag_get_items_frame sniff a t _ (by simp [keyWriter, h])⟩
  · intro h
    exact to_tag_get_items_frame sniff a t _ (by simp [keyWriter, h])
  · intro h
    exact ⟨to_tag_get_items_frame sniff a t _ (by simp [keyWriter, trackNoActive, h]),
      to_tag_get_items_frame sniff a t _ (by simp [keyWriter, trackOfActive, h])⟩
  · intro h
    exact ⟨to_tag_get_items_frame sniff a t _ (by simp [keyWriter, discNoActive, h]),
      to_tag_get_items_frame sniff a t _ (by simp [keyWriter, discOfActive, h])⟩
  · intro h
    refine to_tag_get_items_frame sniff a t _ ?_
    rcases h with h | h <;> simp [keyWriter, albumArtistsActive, h]
  · intro h
    exact to_tag_get_items_frame sniff a t _ (by simp [keyWriter, h])
  · intro h1 h2
    rw [to_tag_pictures]
    simp [picturesSpec, h1, h2]

theorem c9_partial_update_witness :
    (AudioTags.to_tag sniffNone AudioTags.defaultTags exArtistTag).get_items
        .TrackArtist = exArtistTag.get_items .TrackArtist :=
  ((c9_partial_update sniffNone AudioTags.defaultTags exArtistTag).2.1
    (Or.inl rfl)).1
